import Mathlib

/-!
Verification of the STTM-to-Flink SQL compiler core
(`scripts/sttm_to_flink_v22.py`, `scripts/sttm_validations_v22.py`).

The Python string operations used by the code (strip, upper, the anchored
regular expressions) are embedded as executable functions on `List Char`,
and the generator / validator logic is translated function by function.
-/

/-- The single-quote character (ASCII 39), as used by the predicate scanner. -/
def sqChar : Char := Char.ofNat 39

/-- The double-quote character (ASCII 34), as used by the predicate scanner. -/
def dqChar : Char := Char.ofNat 34

/-- Python `str.strip` whitespace (ASCII): space, tab, newline, carriage
return, vertical tab, form feed. -/
def pyIsSpace (c : Char) : Bool :=
  c = ' ' || c = '\t' || c = '\n' || c = '\r' || c = Char.ofNat 11 || c = Char.ofNat 12

/-- Python strip on a character list: drop whitespace from both ends. -/
def stripL (l : List Char) : List Char :=
  ((l.dropWhile pyIsSpace).reverse.dropWhile pyIsSpace).reverse

/-- Python `str.strip`. -/
def pyStrip (s : String) : String := ⟨stripL s.data⟩

/-- Python `str.upper` (ASCII). -/
def pyUpper (s : String) : String := ⟨s.data.map Char.toUpper⟩

/-- Python `str.lower` (ASCII). -/
def pyLower (s : String) : String := ⟨s.data.map Char.toLower⟩

/-- Python `a or b` for strings: `b` when `a` is empty (falsy), else `a`. -/
def pyOr (s d : String) : String := if s = "" then d else s

/-- A regex word character `\w` (ASCII): letters, digits, underscore. -/
def isWordChar (c : Char) : Bool :=
  ('A' ≤ c && c ≤ 'Z') || ('a' ≤ c && c ≤ 'z') || c.isDigit || c = '_'

/-- A word boundary `\b` holds after a word character when the remaining
text is empty or starts with a non-word character. -/
def boundaryOk : List Char → Bool
  | [] => true
  | c :: _ => !isWordChar c

/-- Case-insensitive keyword test at the head of `t`, with a `\b` after it. -/
def kwMatchAt (kw : List Char) (t : List Char) : Bool :=
  ((t.take kw.length).map Char.toUpper = kw) && boundaryOk (t.drop kw.length)

/-- The regex `^\s*(WHERE|AND|OR)\b` (IGNORECASE): on a match, return the
remainder after the matched span; otherwise `none`. -/
def leadKw (l : List Char) : Option (List Char) :=
  let t := l.dropWhile pyIsSpace
  if kwMatchAt "WHERE".data t then some (t.drop 5)
  else if kwMatchAt "AND".data t then some (t.drop 3)
  else if kwMatchAt "OR".data t then some (t.drop 2)
  else none

/-- Substitution of the anchored leading-keyword regex by the empty
string: the unique match, when present, is removed. -/
def stripLeadKw (l : List Char) : List Char := (leadKw l).getD l

/-- Substitution of the trailing-semicolon regex by the empty string:
remove a trailing run of semicolons followed by trailing whitespace.
Whatever precedes the semicolon run is kept, including whitespace. -/
def stripTrailSemis (l : List Char) : List Char :=
  let t := l.reverse.dropWhile pyIsSpace
  if t.head? = some ';' then (t.dropWhile (fun c => c = ';')).reverse else l

/-- Embedding of `sanitize_predicate` (sttm_to_flink_v22.py lines 53-61):
strip, remove one leading WHERE/AND/OR, strip, remove trailing semicolons. -/
def sanitize_predicate (raw : String) : String :=
  ⟨stripTrailSemis (stripL (stripLeadKw (stripL raw.data)))⟩

-- ---------------------------------------------------------------------------
-- basic list lemmas about dropWhile / strip
-- ---------------------------------------------------------------------------

theorem head?_dropWhile_false {p : Char → Bool} {l : List Char} {c : Char}
    (h : (l.dropWhile p).head? = some c) : p c = false := by
  induction l with
  | nil => simp [List.dropWhile] at h
  | cons a t ih =>
    by_cases hp : p a
    · rw [List.dropWhile_cons_of_pos hp] at h
      exact ih h
    · rw [List.dropWhile_cons_of_neg hp] at h
      simp at h
      rw [← h]
      simpa using hp

theorem dropWhile_eq_self_of_head {p : Char → Bool} {l : List Char}
    (h : ∀ c, l.head? = some c → p c = false) : l.dropWhile p = l := by
  cases l with
  | nil => rfl
  | cons a t => exact List.dropWhile_cons_of_neg (by simp [h a rfl])

theorem getLast?_of_suffix {l m : List Char} (h : l <:+ m) (hne : l ≠ []) :
    l.getLast? = m.getLast? := by
  obtain ⟨a, rfl⟩ := h
  rw [List.getLast?_append]
  cases hl : l.getLast? with
  | none => exact absurd (List.getLast?_eq_none_iff.mp hl) hne
  | some c => rfl

theorem getLast?_dropWhile_aux {p : Char → Bool} {l : List Char} {c : Char}
    (h : (l.dropWhile p).getLast? = some c) : l.getLast? = some c := by
  rw [← getLast?_of_suffix (List.dropWhile_suffix p) (by intro he; rw [he] at h; simp at h)]
  exact h

theorem stripL_head {l : List Char} {c : Char}
    (h : (stripL l).head? = some c) : pyIsSpace c = false := by
  unfold stripL at h
  rw [List.head?_reverse] at h
  have hsuf := List.dropWhile_suffix (l := (l.dropWhile pyIsSpace).reverse) pyIsSpace
  have hlast := getLast?_dropWhile_aux (p := pyIsSpace) h
  rw [List.getLast?_reverse] at hlast
  exact head?_dropWhile_false hlast

theorem stripL_last {l : List Char} {c : Char}
    (h : (stripL l).getLast? = some c) : pyIsSpace c = false := by
  unfold stripL at h
  rw [List.getLast?_reverse] at h
  exact head?_dropWhile_false h

theorem stripL_eq_self {l : List Char}
    (h1 : ∀ c, l.head? = some c → pyIsSpace c = false)
    (h2 : ∀ c, l.getLast? = some c → pyIsSpace c = false) :
    stripL l = l := by
  unfold stripL
  rw [dropWhile_eq_self_of_head h1]
  rw [dropWhile_eq_self_of_head (by intro c hc; rw [List.head?_reverse] at hc; exact h2 c hc)]
  exact List.reverse_reverse l

-- facts about the output of sanitize_predicate

theorem sanitize_head {x : String} {c : Char}
    (h : (sanitize_predicate x).data.head? = some c) : pyIsSpace c = false := by
  unfold sanitize_predicate at h
  simp only at h
  set z := stripL (stripLeadKw (stripL x.data)) with hz
  unfold stripTrailSemis at h
  simp only at h
  by_cases hc : (z.reverse.dropWhile pyIsSpace).head? = some ';'
  · rw [if_pos hc] at h
    rw [List.head?_reverse] at h
    have hlast := getLast?_dropWhile_aux (p := fun c => c = ';') h
    have hlast2 := getLast?_dropWhile_aux (p := pyIsSpace) hlast
    rw [List.getLast?_reverse] at hlast2
    exact stripL_head hlast2
  · rw [if_neg hc] at h
    exact stripL_head h

theorem sanitize_last_not_semi {x : String} {c : Char}
    (h : (sanitize_predicate x).data.getLast? = some c) : c ≠ ';' := by
  unfold sanitize_predicate at h
  simp only at h
  set z := stripL (stripLeadKw (stripL x.data)) with hz
  unfold stripTrailSemis at h
  simp only at h
  by_cases hc : (z.reverse.dropWhile pyIsSpace).head? = some ';'
  · rw [if_pos hc] at h
    rw [List.getLast?_reverse] at h
    have := head?_dropWhile_false h
    simpa using this
  · rw [if_neg hc] at h
    intro he
    apply hc
    have hz2 : z.reverse.dropWhile pyIsSpace = z.reverse := by
      apply dropWhile_eq_self_of_head
      intro d hd
      rw [List.head?_reverse] at hd
      exact stripL_last hd
    rw [hz2, List.head?_reverse]
    rw [h, he]

/-- The claim, as stated, is false: `sanitize` strips only a single leading
keyword, so a predicate whose sanitized form again starts with a keyword is
not a fixed point. -/
theorem claim_C4_cx :
    sanitize_predicate (sanitize_predicate "WHERE WHERE x") ≠
      sanitize_predicate "WHERE WHERE x" := by decide

/-- C4 (amended): `sanitize` is idempotent on every input whose sanitized
form does not itself begin with a leading WHERE/AND/OR keyword and does not
end with a whitespace character. -/
theorem claim_C4 (x : String)
    (h1 : leadKw (sanitize_predicate x).data = none)
    (h2 : ∀ c, (sanitize_predicate x).data.getLast? = some c → pyIsSpace c = false) :
    sanitize_predicate (sanitize_predicate x) = sanitize_predicate x := by
  set y := sanitize_predicate x with hy
  have hstrip : stripL y.data = y.data :=
    stripL_eq_self (fun c hc => sanitize_head (hy ▸ hc)) h2
  show (⟨stripTrailSemis (stripL (stripLeadKw (stripL y.data)))⟩ : String) = y
  rw [hstrip]
  unfold stripLeadKw
  rw [h1]
  simp only [Option.getD_none]
  rw [hstrip]
  have htr : stripTrailSemis y.data = y.data := by
    unfold stripTrailSemis
    simp only
    have hz2 : y.data.reverse.dropWhile pyIsSpace = y.data.reverse := by
      apply dropWhile_eq_self_of_head
      intro d hd
      rw [List.head?_reverse] at hd
      exact h2 d hd
    rw [hz2]
    rw [if_neg ?hne]
    case hne =>
      rw [List.head?_reverse]
      intro hsemi
      exact sanitize_last_not_semi (hy ▸ hsemi) rfl
  rw [htr]

/-- Witness for C4: a concrete input satisfying the amended hypotheses. -/
theorem claim_C4_witness :
    sanitize_predicate (sanitize_predicate " WHERE a = 1;") =
      sanitize_predicate " WHERE a = 1;" :=
  claim_C4 " WHERE a = 1;" (by decide) (by decide)

-- ---------------------------------------------------------------------------
-- the mapping row model and choose_expr
-- ---------------------------------------------------------------------------

/-- One normalized row of the STTM mapping sheet (string fields, as handed
to `generate` after `norm_cols`). -/
structure Row where
  targetTable : String := ""
  targetColumn : String := ""
  targetDataType : String := ""
  pipelineStage : String := ""
  isTargetPK : String := ""
  sourcePrimaryTable : String := ""
  sourcePrimaryAlias : String := ""
  sourceField : String := ""
  fieldSelector : String := ""
  messageFormat : String := ""
  exprOverride : String := ""
  sourceTransformExpr : String := ""
  filterPredicate : String := ""
  joinTable : String := ""
  joinAlias : String := ""
  joinCondition : String := ""
  joinType : String := ""
deriving DecidableEq, Repr, Inhabited

/-- The regex `(?is)^\s*CAST\s*\(`: optional whitespace, `CAST`
(case-insensitive), optional whitespace, an opening parenthesis. -/
def startsWithCast (s : String) : Bool :=
  let t := s.data.dropWhile pyIsSpace
  ((t.take 4).map Char.toUpper = "CAST".data) &&
    ((t.drop 4).dropWhile pyIsSpace).head? = some '('

/-- The regex `^\d+$` of Python `re.match` (the `$` also accepts one final
newline): a non-empty all-digit string, optionally ending in a newline. -/
def isDigitsRe (s : String) : Bool :=
  let l := s.data
  let core := if l.getLast? = some '\n' then l.dropLast else l
  !core.isEmpty && core.all Char.isDigit

/-- Python `int(...)` on an all-digit string. -/
def parseNat (s : String) : Nat :=
  s.data.foldl (fun a c => if c.isDigit then a * 10 + (c.toNat - 48) else a) 0

/-- Dictionary lookup `d.get(k, 0)` for a dict built by repeated
assignment (last write wins), modelled as an association list in write
order. -/
def dictGetNat (l : List (String × Nat)) (k : String) : Nat :=
  match l.reverse.find? (fun p => p.1 = k) with
  | some p => p.2
  | none => 0

/-- Resolution of `TargetDataType`: fall back to STRING when the field is
empty, strip, and fall back to STRING again when the strip left nothing. -/
def tgtTypeOf (r : Row) : String :=
  pyOr (pyStrip (pyOr r.targetDataType "STRING")) "STRING"

/-- Cast wrapping, `CAST(<e> AS <t>)`. -/
def castWrap (e t : String) : String := "CAST(" ++ e ++ " AS " ++ t ++ ")"

/-- Embedding of `choose_expr` (sttm_to_flink_v22.py lines 100-139). -/
def choose_expr (row : Row) (is_view : Bool) (raw_payload_col : String)
    (csv_delim : String) (auto_csv_index : List (String × Nat)) : String :=
  let override := pyStrip row.exprOverride
  let stx := pyStrip row.sourceTransformExpr
  let tgt := tgtTypeOf row
  if is_view then
    if override ≠ "" then
      if startsWithCast override then override else castWrap override tgt
    else if stx ≠ "" then
      if startsWithCast stx then stx else castWrap stx tgt
    else
      let mf := pyUpper row.messageFormat
      let sfld := pyStrip row.sourceField
      let fsel := pyStrip row.fieldSelector
      let base :=
        if mf = "JSON" then
          "JSON_VALUE(CAST(" ++ raw_payload_col ++ " AS STRING), \x27$." ++
            pyOr sfld fsel ++ "\x27)"
        else if mf = "CSV" then
          let srcp := pyOr sfld raw_payload_col
          let idx := if isDigitsRe fsel then parseNat fsel
                     else dictGetNat auto_csv_index row.targetColumn
          "SPLIT_INDEX(CAST(" ++ srcp ++ " AS STRING), \x27" ++ csv_delim ++
            "\x27, " ++ toString idx ++ ")"
        else pyOr sfld raw_payload_col
      let norm := if "STRING".data.isPrefixOf (pyUpper tgt).data
                  then "TRIM(" ++ base ++ ")"
                  else "NULLIF(TRIM(" ++ base ++ "), \x27\x27)"
      castWrap norm tgt
  else
    if override ≠ "" then override
    else if stx ≠ "" then stx
    else
      let sf := pyStrip row.sourceField
      if sf ≠ "" then sf
      else pyOr (pyStrip row.targetColumn) "NULL"

/-- C2: `ExprOverride` takes precedence over `SourceTransformExpr`, which
takes precedence over any auto-generated or fallback expression (the
result depends on nothing else when one of them is non-empty); on a view
stage the chosen override/transform is returned verbatim when it already
begins with an explicit CAST and is otherwise wrapped in a cast to
`TargetDataType`. -/
theorem claim_C2 (row row2 : Row) (p d : String) (i i2 : List (String × Nat)) :
    (pyStrip row.exprOverride ≠ "" →
      choose_expr row true p d i =
        (if startsWithCast (pyStrip row.exprOverride)
         then pyStrip row.exprOverride
         else castWrap (pyStrip row.exprOverride) (tgtTypeOf row))) ∧
    (pyStrip row.exprOverride = "" → pyStrip row.sourceTransformExpr ≠ "" →
      choose_expr row true p d i =
        (if startsWithCast (pyStrip row.sourceTransformExpr)
         then pyStrip row.sourceTransformExpr
         else castWrap (pyStrip row.sourceTransformExpr) (tgtTypeOf row))) ∧
    (pyStrip row.exprOverride ≠ "" →
      choose_expr row false p d i = pyStrip row.exprOverride) ∧
    (pyStrip row.exprOverride = "" → pyStrip row.sourceTransformExpr ≠ "" →
      choose_expr row false p d i = pyStrip row.sourceTransformExpr) ∧
    (∀ v : Bool, pyStrip row.exprOverride ≠ "" →
      pyStrip row.exprOverride = pyStrip row2.exprOverride →
      tgtTypeOf row = tgtTypeOf row2 →
      choose_expr row v p d i = choose_expr row2 v p d i2) := by
  refine ⟨?a, ?b, ?c, ?d, ?e⟩
  case a => intro h; simp [choose_expr, h]
  case b => intro h h2; simp [choose_expr, h, h2]
  case c => intro h; simp [choose_expr, h]
  case d => intro h h2; simp [choose_expr, h, h2]
  case e =>
    intro v h heq htgt
    cases v <;> simp [choose_expr, ← heq, ← htgt, h]

/-- Witness for C2 at a concrete row. -/
theorem claim_C2_witness :
    choose_expr { exprOverride := "x + 1", targetDataType := "INT" } true "val" "," [] =
      "CAST(x + 1 AS INT)" := by
  have h := (claim_C2 { exprOverride := "x + 1", targetDataType := "INT" }
    default "val" "," [] []).1 (by decide)
  rw [h]; decide

/-- C3: for a non-view stage with empty override and transform, the
resolver returns `SourceField` verbatim when non-empty, else the bare
`TargetColumn`, else the literal `NULL` marker — with no extraction and no
cast. -/
theorem claim_C3 (row : Row) (p d : String) (i : List (String × Nat))
    (h1 : pyStrip row.exprOverride = "")
    (h2 : pyStrip row.sourceTransformExpr = "") :
    choose_expr row false p d i =
      (if pyStrip row.sourceField ≠ "" then pyStrip row.sourceField
       else if pyStrip row.targetColumn ≠ "" then pyStrip row.targetColumn
       else "NULL") := by
  simp only [choose_expr, h1, h2]
  by_cases hsf : pyStrip row.sourceField = "" <;>
    by_cases htc : pyStrip row.targetColumn = "" <;>
      simp [hsf, htc, pyOr]

/-- Witness for C3 at a concrete row. -/
theorem claim_C3_witness :
    choose_expr { sourceField := "src_col", messageFormat := "JSON" } false "val" "," [] =
      "src_col" := by
  have h := claim_C3 { sourceField := "src_col", messageFormat := "JSON" }
    "val" "," [] (by decide) (by decide)
  rw [h]; decide

-- ---------------------------------------------------------------------------
-- the CSV index allocator (generate, lines 294-319)
-- ---------------------------------------------------------------------------

/-- A row participates in CSV auto-indexing when its `MessageFormat` is CSV
and it carries neither an override nor a transform (the rows *not* skipped
by the two allocator loops). -/
def isAutoCandidate (r : Row) : Bool :=
  pyUpper r.messageFormat = "CSV" && pyStrip r.exprOverride = "" &&
    pyStrip r.sourceTransformExpr = ""

/-- Insert into a Python-set modelled as a list (no-op when present). -/
def setInsert (l : List Nat) (x : Nat) : List Nat :=
  if x ∈ l then l else x :: l

/-- First allocator pass: the set of indices reserved by explicit numeric
`FieldSelector`s of candidate rows. -/
def explicitReserved (rows : List Row) : List Nat :=
  rows.foldl
    (fun s r =>
      if isAutoCandidate r && isDigitsRe (pyStrip r.fieldSelector)
      then setInsert s (parseNat (pyStrip r.fieldSelector))
      else s)
    []

/-- Loop body of `next_free` with explicit fuel (each iteration that advances
removes one occurrence from `reserved`, so `reserved.length` bounds the
number of advancing steps). -/
def nextFreeAux : Nat → List Nat → Nat → Nat
  | 0, _, start => start
  | fuel + 1, reserved, start =>
    if start ∈ reserved then nextFreeAux fuel (reserved.erase start) (start + 1)
    else start

/-- Embedding of `next_free`: the smallest integer not below `start` and not in `reserved`. -/
def nextFree (reserved : List Nat) (start : Nat) : Nat :=
  nextFreeAux reserved.length reserved start

/-- State of the second allocator pass. -/
structure AllocSt where
  reserved : List Nat
  cursor : Nat
  assigned : List (String × Nat)
deriving Repr, DecidableEq

/-- One step of the second allocator pass (the body of the second loop). -/
def allocStep (st : AllocSt) (r : Row) : AllocSt :=
  if ¬ isAutoCandidate r then st
  else
    let fsel := pyStrip r.fieldSelector
    if isDigitsRe fsel then
      { st with cursor := max st.cursor (parseNat fsel + 1) }
    else
      let idx := nextFree st.reserved st.cursor
      { reserved := setInsert st.reserved idx,
        cursor := idx + 1,
        assigned := st.assigned ++ [(r.targetColumn, idx)] }

/-- The CSV auto-index allocation for one generation unit: the
`(TargetColumn, index)` assignments made by the second loop, in row order. -/
def allocCSV (rows : List Row) : List (String × Nat) :=
  (rows.foldl allocStep ⟨explicitReserved rows, 0, []⟩).assigned

theorem nextFreeAux_spec (fuel : Nat) (reserved : List Nat) (start : Nat)
    (hfuel : reserved.length ≤ fuel) :
    nextFreeAux fuel reserved start ∉ reserved ∧
      start ≤ nextFreeAux fuel reserved start := by
  induction fuel generalizing reserved start with
  | zero =>
    have : reserved = [] := List.length_eq_zero.mp (Nat.le_zero.mp hfuel)
    subst this
    simp [nextFreeAux]
  | succ fuel ih =>
    rw [nextFreeAux]
    by_cases hmem : start ∈ reserved
    · rw [if_pos hmem]
      have hlen : (reserved.erase start).length ≤ fuel := by
        rw [List.length_erase_of_mem hmem]
        have : 0 < reserved.length := List.length_pos_of_mem hmem
        omega
      obtain ⟨ih1, ih2⟩ := ih (reserved.erase start) (start + 1) hlen
      refine ⟨?notmem, by omega⟩
      case notmem =>
        intro hin
        have hne : nextFreeAux fuel (reserved.erase start) (start + 1) ≠ start := by
          omega
        exact ih1 ((List.mem_erase_of_ne hne).mpr hin)
    · rw [if_neg hmem]
      exact ⟨hmem, le_refl _⟩

theorem nextFree_spec (reserved : List Nat) (start : Nat) :
    nextFree reserved start ∉ reserved ∧ start ≤ nextFree reserved start :=
  nextFreeAux_spec reserved.length reserved start (le_refl _)

/-- Allocator invariant: the explicit set is contained in the reserved set,
every assigned index is reserved, assigned indices are pairwise distinct,
and no assigned index is explicit. -/
def allocInv (expl : List Nat) (st : AllocSt) : Prop :=
  (∀ x ∈ expl, x ∈ st.reserved) ∧
  (∀ p ∈ st.assigned, p.2 ∈ st.reserved) ∧
  (st.assigned.map Prod.snd).Nodup ∧
  (∀ p ∈ st.assigned, p.2 ∉ expl)

theorem mem_setInsert {l : List Nat} {x y : Nat} :
    y ∈ setInsert l x ↔ y = x ∨ y ∈ l := by
  unfold setInsert
  by_cases h : x ∈ l
  · simp only [if_pos h]
    constructor
    · exact fun hy => Or.inr hy
    · rintro (rfl | hy) <;> [exact h; exact hy]
  · simp [if_neg h]

theorem allocStep_inv {expl : List Nat} {st : AllocSt} {r : Row}
    (h : allocInv expl st) : allocInv expl (allocStep st r) := by
  obtain ⟨h1, h2, h3, h4⟩ := h
  unfold allocStep
  by_cases hc : isAutoCandidate r
  · simp only [hc, not_true, if_neg, ite_false, ite_not]
    by_cases hd : isDigitsRe (pyStrip r.fieldSelector)
    · simp only [if_pos hd]
      exact ⟨h1, h2, h3, h4⟩
    · simp only [if_neg hd]
      have hnf := nextFree_spec st.reserved st.cursor
      refine ⟨?e1, ?e2, ?e3, ?e4⟩
      case e1 => intro x hx; exact (mem_setInsert).mpr (Or.inr (h1 x hx))
      case e2 =>
        intro p hp
        simp only [List.mem_append, List.mem_singleton] at hp
        rcases hp with hp | hp
        · exact (mem_setInsert).mpr (Or.inr (h2 p hp))
        · rw [hp]; exact (mem_setInsert).mpr (Or.inl rfl)
      case e3 =>
        simp only [List.map_append, List.map_cons, List.map_nil]
        rw [List.nodup_append]
        refine ⟨h3, List.nodup_singleton _, ?disj⟩
        intro a ha hb
        simp only [List.mem_singleton] at hb
        subst hb
        simp only [List.mem_map] at ha
        obtain ⟨p, hp, hpa⟩ := ha
        exact hnf.1 (hpa ▸ h2 p hp)
      case e4 =>
        intro p hp
        simp only [List.mem_append, List.mem_singleton] at hp
        rcases hp with hp | hp
        · exact h4 p hp
        · rw [hp]
          intro hcon
          exact hnf.1 (h1 _ hcon)
  · simp only [hc]
    exact ⟨h1, h2, h3, h4⟩

theorem foldl_allocInv {expl : List Nat} (rows : List Row) (st : AllocSt)
    (h : allocInv expl st) : allocInv expl (rows.foldl allocStep st) := by
  induction rows generalizing st with
  | nil => exact h
  | cons r rs ih => exact ih _ (allocStep_inv h)

/-- C1: for every unit, every auto-indexed CSV row receives a distinct
index, never equal to an explicit numeric `FieldSelector` of the unit nor
to the index of another auto row; and in the two-row example where the auto row
precedes a row with explicit selector `2`, the auto row receives index 0. -/
theorem claim_C1 (rows : List Row) :
    ((allocCSV rows).map Prod.snd).Nodup ∧
    (∀ p ∈ allocCSV rows, p.2 ∉ explicitReserved rows) ∧
    allocCSV
      [{ targetColumn := "colA", messageFormat := "CSV" },
       { targetColumn := "colB", messageFormat := "CSV", fieldSelector := "2" }] =
      [("colA", 0)] := by
  have hinit : allocInv (explicitReserved rows)
      (⟨explicitReserved rows, 0, []⟩ : AllocSt) := by
    refine ⟨fun x hx => hx, ?_, ?_, ?_⟩ <;> simp
  have h := foldl_allocInv rows _ hinit
  exact ⟨h.2.2.1, h.2.2.2, by decide⟩

/-- Witness for C1: the no-collision facts applied at the concrete two-row
example. -/
theorem claim_C1_witness :
    (0 : Nat) ∉ explicitReserved
      [{ targetColumn := "colA", messageFormat := "CSV" },
       { targetColumn := "colB", messageFormat := "CSV", fieldSelector := "2" }] :=
  (claim_C1 [{ targetColumn := "colA", messageFormat := "CSV" },
    { targetColumn := "colB", messageFormat := "CSV", fieldSelector := "2" }]).2.1
    ("colA", 0) (by decide)

-- ---------------------------------------------------------------------------
-- the predicate rewriter (rewrite_predicate_as_json, lines 45-96)
-- ---------------------------------------------------------------------------

/-- An uppercase ASCII letter. -/
def isUpperAZ (c : Char) : Bool := 'A' ≤ c && c ≤ 'Z'

/-- A character of the token class `[A-Z0-9_]`. -/
def isTokChar (c : Char) : Bool := isUpperAZ c || c.isDigit || c = '_'

/-- Embedding of `_JSON_FIELD_TOKEN.match(fp, i)`: the regex
`\b([A-Z][A-Z0-9_]*[A-Z0-9])\b` matched at the head of `l`, where `prevW`
says whether the previous character was a word character (so `\b` holds at
the head iff `prevW` is false).  The match, when it exists, is exactly the
maximal `[A-Z0-9_]` run: it must start with `[A-Z]`, have length at least
2, end in `[A-Z0-9]`, and be followed by a word boundary. -/
def tokenMatch (prevW : Bool) (l : List Char) : Option (List Char × List Char) :=
  if prevW then none
  else
    match l with
    | [] => none
    | c :: _ =>
      if !isUpperAZ c then none
      else
        let run := l.takeWhile isTokChar
        let rest := l.drop run.length
        if 2 ≤ run.length &&
            (match run.getLast? with
             | some lc => isUpperAZ lc || lc.isDigit
             | none => false) &&
            boundaryOk rest
        then some (run, rest) else none

/-- Embedding of `_SQL_RESERVED` (sttm_to_flink_v22.py lines 45-50). -/
def _SQL_RESERVED : List String :=
  ["LIKE","AND","OR","NOT","IN","BETWEEN","IS","NULL","EXISTS","ALL","ANY","SOME",
   "TRUE","FALSE","CASE","WHEN","THEN","ELSE","END","ON","AS","JOIN","LEFT","RIGHT",
   "FULL","INNER","OUTER","GROUP","BY","ORDER","HAVING","DISTINCT","ASC","DESC",
   "LIMIT","OFFSET"]

/-- Python `token.isdigit`: non-empty and all digits. -/
def isDigitTok (tok : List Char) : Bool := !tok.isEmpty && tok.all Char.isDigit

/-- Embedding of `_rewrite_token` (lines 63-70). -/
def _rewrite_token (tok : List Char) (payload : String) : List Char :=
  if (⟨tok⟩ : String) ∈ _SQL_RESERVED then tok
  else if isDigitTok tok then tok
  else if !tok.contains '_' && tok.length ≤ 3 then tok
  else ("JSON_VALUE(CAST(" ++ payload ++ " AS STRING), \x27$.").data ++ tok ++ "\x27)".data

/-- The character scan of `rewrite_predicate_as_json` (lines 79-96).  The
Python loop advances an index `i`; after a token match it jumps to the
match end, which is modelled here by a skip counter over the remaining
characters (all of them token characters, already consumed by the match). -/
def scanR (payload : String) : Nat → Bool → Bool → Bool → List Char → List Char
  | _, _, _, _, [] => []
  | skip + 1, _, in_s, in_d, _ :: rest => scanR payload skip true in_s in_d rest
  | 0, prevW, in_s, in_d, ch :: rest =>
    if ch = sqChar && !in_d then ch :: scanR payload 0 false (!in_s) in_d rest
    else if ch = dqChar && !in_s then ch :: scanR payload 0 false in_s (!in_d) rest
    else if in_s || in_d then ch :: scanR payload 0 (isWordChar ch) in_s in_d rest
    else
      match tokenMatch prevW (ch :: rest) with
      | some (tok, _) =>
        _rewrite_token tok payload ++ scanR payload (tok.length - 1) true in_s in_d rest
      | none => ch :: scanR payload 0 (isWordChar ch) in_s in_d rest

/-- Substring test (Python `needle in hay`). -/
def hasSub (needle : List Char) : List Char → Bool
  | [] => needle.isPrefixOf []
  | c :: t => needle.isPrefixOf (c :: t) || hasSub needle t

/-- Embedding of `rewrite_predicate_as_json` (lines 72-96): unchanged when empty or when
the text already contains `JSON_VALUE` (case-insensitive); otherwise the
character scan. -/
def rewrite_predicate_as_json (fp payload : String) : String :=
  if fp = "" || hasSub "JSON_VALUE".data (pyUpper fp).data then fp
  else ⟨scanR payload 0 false false false fp.data⟩

/-- Does any position of `l` (scanned with word-boundary tracking, ignoring
quotes) start an identifier-like token match? -/
def checkTok : Bool → List Char → Bool
  | _, [] => false
  | pW, c :: rest => (tokenMatch pW (c :: rest)).isSome || checkTok (isWordChar c) rest

-- scanner lemmas

theorem scanR_lit_single (payload : String) (lit : List Char) :
    ∀ post pW, sqChar ∉ lit →
      scanR payload 0 pW true false (lit ++ sqChar :: post) =
        lit ++ sqChar :: scanR payload 0 false false false post := by
  induction lit with
  | nil =>
    intro post pW _
    simp [scanR]
  | cons c lit ih =>
    intro post pW hmem
    have hc : c ≠ sqChar := fun he => hmem (he ▸ List.mem_cons_self c lit)
    have hrest : sqChar ∉ lit := fun hm => hmem (List.mem_cons_of_mem c hm)
    rw [List.cons_append, scanR]
    rw [if_neg (by simp [hc]), if_neg (by simp), if_pos (by simp)]
    rw [ih post (isWordChar c) hrest]
    rfl

theorem scanR_lit_double (payload : String) (lit : List Char) :
    ∀ post pW, dqChar ∉ lit →
      scanR payload 0 pW false true (lit ++ dqChar :: post) =
        lit ++ dqChar :: scanR payload 0 false false false post := by
  induction lit with
  | nil =>
    intro post pW _
    rw [List.nil_append, scanR]
    rw [if_neg (by decide), if_pos (by decide)]
    rfl
  | cons c lit ih =>
    intro post pW hmem
    have hc : c ≠ dqChar := fun he => hmem (he ▸ List.mem_cons_self c lit)
    have hrest : dqChar ∉ lit := fun hm => hmem (List.mem_cons_of_mem c hm)
    rw [List.cons_append, scanR]
    rw [if_neg (by simp), if_neg (by simp [hc]), if_pos (by simp)]
    rw [ih post (isWordChar c) hrest]
    rfl

theorem scanR_id_of_noTok (payload : String) (l : List Char) :
    ∀ pW in_s in_d, checkTok pW l = false →
      scanR payload 0 pW in_s in_d l = l := by
  induction l with
  | nil => intro pW in_s in_d _; rfl
  | cons c rest ih =>
    intro pW in_s in_d h
    rw [checkTok] at h
    simp only [Bool.or_eq_false_iff] at h
    obtain ⟨hnone, hrest⟩ := h
    have hnone2 : tokenMatch pW (c :: rest) = none := by
      cases htm : tokenMatch pW (c :: rest) with
      | none => rfl
      | some v => rw [htm] at hnone; exact absurd hnone (by simp)
    rw [scanR]
    by_cases h1 : c = sqChar && !in_d
    · rw [if_pos h1]
      have hcq : c = sqChar := by
        cases hq : (c = sqChar : Bool) with
        | false => rw [hq] at h1; simp at h1
        | true => exact of_decide_eq_true hq
      have hw : isWordChar c = false := by rw [hcq]; decide
      rw [ih false _ _ (hw ▸ hrest)]
    · rw [if_neg (by simpa using h1)]
      by_cases h2 : c = dqChar && !in_s
      · rw [if_pos h2]
        have hcq : c = dqChar := by
          cases hq : (c = dqChar : Bool) with
          | false => rw [hq] at h2; simp at h2
          | true => exact of_decide_eq_true hq
        have hw : isWordChar c = false := by rw [hcq]; decide
        rw [ih false _ _ (hw ▸ hrest)]
      · rw [if_neg (by simpa using h2)]
        by_cases h3 : in_s || in_d
        · rw [if_pos h3, ih _ _ _ hrest]
        · rw [if_neg (by simpa using h3), hnone2, ih _ _ _ hrest]

/-- Rebuilding a string from its characters is the identity. -/
theorem string_mk_data (s : String) : (⟨s.data⟩ : String) = s := rfl

/-- C5: the rewriter copies every character lying inside a single- or
double-quoted literal span verbatim (scanning from any state inside a span
up to its closing quote), and a predicate without identifier-like tokens is
returned unchanged. -/
theorem claim_C5 (payload : String) (pW : Bool) :
    (∀ lit post : List Char, sqChar ∉ lit →
      scanR payload 0 pW true false (lit ++ sqChar :: post) =
        lit ++ sqChar :: scanR payload 0 false false false post) ∧
    (∀ lit post : List Char, dqChar ∉ lit →
      scanR payload 0 pW false true (lit ++ dqChar :: post) =
        lit ++ dqChar :: scanR payload 0 false false false post) ∧
    (∀ fp : String, checkTok false fp.data = false →
      rewrite_predicate_as_json fp payload = fp) := by
  refine ⟨fun lit post h => scanR_lit_single payload lit post pW h,
    fun lit post h => scanR_lit_double payload lit post pW h, ?nt⟩
  case nt =>
    intro fp h
    unfold rewrite_predicate_as_json
    by_cases hg : fp = "" || hasSub "JSON_VALUE".data (pyUpper fp).data
    · rw [if_pos hg]
    · rw [if_neg hg, scanR_id_of_noTok payload fp.data false false false h]

/-- Witness for C5: a concrete predicate with no identifier-like tokens. -/
theorem claim_C5_witness :
    rewrite_predicate_as_json "x < 1" "val" = "x < 1" :=
  (claim_C5 "val" false).2.2 "x < 1" (by decide)

/-- The claim, as stated, is false: the code also leaves unchanged any
matched token of length at most 3 that contains no underscore, even when
it is neither a reserved keyword nor a digit sequence.  `ABC` in
`ABC = 1` is identifier-like, unreserved and non-numeric, yet no JSON
lookup is produced. -/
theorem claim_C6_cx :
    rewrite_predicate_as_json "ABC = 1" "val" = "ABC = 1" ∧
    checkTok false "ABC = 1".data = true ∧
    ("ABC" ∉ _SQL_RESERVED) ∧
    ¬ isDigitTok "ABC".data ∧
    hasSub "JSON_VALUE".data (pyUpper (rewrite_predicate_as_json "ABC = 1" "val")).data
      = false := by
  refine ⟨by decide, by decide, by decide, by decide, by decide⟩

/-- C6 (amended): for a predicate not already containing the lookup
function name, the scan replaces every identifier-like token outside
string literals by a JSON-path lookup keyed by that token, unless the
token is reserved, a pure digit sequence, or has length at most 3 without
an underscore — those are left unchanged. -/
theorem claim_C6 (payload : String) :
    (∀ fp : String, fp ≠ "" →
      hasSub "JSON_VALUE".data (pyUpper fp).data = false →
      rewrite_predicate_as_json fp payload =
        ⟨scanR payload 0 false false false fp.data⟩) ∧
    (∀ (pW : Bool) (ch : Char) (rest tok rest2 : List Char),
      tokenMatch pW (ch :: rest) = some (tok, rest2) →
      scanR payload 0 pW false false (ch :: rest) =
        _rewrite_token tok payload ++
          scanR payload (tok.length - 1) true false false rest) ∧
    (∀ tok : List Char, (⟨tok⟩ : String) ∉ _SQL_RESERVED →
      isDigitTok tok = false →
      (tok.contains '_' ∨ 3 < tok.length) →
      _rewrite_token tok payload =
        ("JSON_VALUE(CAST(" ++ payload ++ " AS STRING), \x27$.").data ++
          tok ++ "\x27)".data) ∧
    (∀ tok : List Char,
      ((⟨tok⟩ : String) ∈ _SQL_RESERVED ∨ isDigitTok tok = true ∨
        (tok.contains '_' = false ∧ tok.length ≤ 3)) →
      _rewrite_token tok payload = tok) := by
  refine ⟨?g, ?step, ?yes, ?no⟩
  case g =>
    intro fp hne hsub
    unfold rewrite_predicate_as_json
    rw [if_neg (by simp [hne, hsub])]
  case step =>
    intro pW ch rest tok rest2 hm
    have hup : isUpperAZ ch = true := by
      unfold tokenMatch at hm
      by_cases hpw : pW
      · rw [if_pos hpw] at hm; exact absurd hm (by simp)
      · rw [if_neg hpw] at hm
        simp only at hm
        by_cases hu : isUpperAZ ch
        · exact hu
        · rw [if_pos (by simp [hu])] at hm; exact absurd hm (by simp)
    have hsq : ch ≠ sqChar := by
      intro he; rw [he] at hup; exact absurd hup (by decide)
    have hdq : ch ≠ dqChar := by
      intro he; rw [he] at hup; exact absurd hup (by decide)
    rw [scanR]
    rw [if_neg (by simp [hsq]), if_neg (by simp [hdq]), if_neg (by simp)]
    rw [hm]
  case yes =>
    intro tok h1 h2 h3
    unfold _rewrite_token
    rw [if_neg h1, if_neg (by simp [h2])]
    rw [if_neg ?short]
    case short =>
      simp only [Bool.and_eq_true, Bool.not_eq_true']
      rintro ⟨hc, hl⟩
      rcases h3 with h3 | h3
      · rw [h3] at hc; exact absurd hc (by decide)
      · exact absurd (of_decide_eq_true hl) (by omega)
  case no =>
    intro tok h
    unfold _rewrite_token
    rcases h with h | h | h
    · rw [if_pos h]
    · by_cases hres : (⟨tok⟩ : String) ∈ _SQL_RESERVED
      · rw [if_pos hres]
      · rw [if_neg hres, if_pos h]
    · by_cases hres : (⟨tok⟩ : String) ∈ _SQL_RESERVED
      · rw [if_pos hres]
      · rw [if_neg hres]
        by_cases hdig : isDigitTok tok
        · rw [if_pos hdig]
        · rw [if_neg hdig]
          rw [if_pos ?cond]
          case cond =>
            simp only [h.1, Bool.not_false, Bool.true_and, decide_eq_true_eq]
            exact h.2

/-- Witness for C6: the example of the spec — `STATUS` is rewritten to a
JSON lookup while the quoted literal A is untouched. -/
theorem claim_C6_witness :
    rewrite_predicate_as_json "STATUS = \x27A\x27" "val" =
      "JSON_VALUE(CAST(val AS STRING), \x27$.STATUS\x27) = \x27A\x27" := by
  have h := (claim_C6 "val").1 "STATUS = \x27A\x27" (by decide) (by decide)
  rw [h]
  decide

-- ---------------------------------------------------------------------------
-- the join clause synthesizer (build_insert_sql, lines 238-247)
-- ---------------------------------------------------------------------------

/-- A row supplies a join when both `JoinTable` and `JoinCondition` are
non-empty after stripping. -/
def joinQualifies (r : Row) : Bool :=
  pyStrip r.joinTable ≠ "" && pyStrip r.joinCondition ≠ ""

/-- Join kind `jty`: normalize, defaulting to LEFT when absent or not
one of INNER/LEFT/RIGHT/FULL. -/
def joinKind (r : Row) : String :=
  let jty := pyUpper (pyOr r.joinType "LEFT")
  if jty = "INNER" || jty = "LEFT" || jty = "RIGHT" || jty = "FULL" then jty
  else "LEFT"

/-- Join alias `ja`, defaulting to the placeholder `j` when absent. -/
def joinAliasOf (r : Row) : String := pyStrip (pyOr r.joinAlias "j")

/-- The join clause text built from one qualifying row. -/
def mkJoinClause (r : Row) : String :=
  "\n  " ++ joinKind r ++ " JOIN " ++ pyStrip r.joinTable ++ " " ++
    joinAliasOf r ++ " ON " ++ pyStrip r.joinCondition

/-- The join selection loop: at most one join, from the first qualifying
row; empty when none qualifies. -/
def joinClause (rows : List Row) : String :=
  match rows.find? joinQualifies with
  | some r => mkJoinClause r
  | none => ""

/-- C8: the synthesizer picks the first row with both join table and
condition (ignoring everything after it, hence never more than one join),
emits an empty clause when no row qualifies, normalizes the join kind to
INNER/LEFT/RIGHT/FULL with LEFT as default, and defaults an absent alias
to the placeholder `j`. -/
theorem claim_C8 :
    (∀ rows : List Row, (∀ x ∈ rows, joinQualifies x = false) →
      joinClause rows = "") ∧
    (∀ (pre : List Row) (r : Row) (post : List Row),
      (∀ x ∈ pre, joinQualifies x = false) → joinQualifies r = true →
      joinClause (pre ++ r :: post) = mkJoinClause r) ∧
    (∀ r : Row, joinKind r = "INNER" ∨ joinKind r = "LEFT" ∨
      joinKind r = "RIGHT" ∨ joinKind r = "FULL") ∧
    (∀ r : Row, r.joinType = "" → joinKind r = "LEFT") ∧
    (∀ r : Row,
      pyUpper (pyOr r.joinType "LEFT") ≠ "INNER" →
      pyUpper (pyOr r.joinType "LEFT") ≠ "LEFT" →
      pyUpper (pyOr r.joinType "LEFT") ≠ "RIGHT" →
      pyUpper (pyOr r.joinType "LEFT") ≠ "FULL" →
      joinKind r = "LEFT") ∧
    (∀ r : Row, r.joinAlias = "" → joinAliasOf r = "j") := by
  refine ⟨?none, ?first, ?kinds, ?kdef, ?kunrec, ?adef⟩
  case none =>
    intro rows h
    unfold joinClause
    rw [List.find?_eq_none.mpr (fun x hx => by simp [h x hx])]
  case first =>
    intro pre r post hpre hr
    unfold joinClause
    rw [List.find?_append, List.find?_eq_none.mpr (fun x hx => by simp [hpre x hx])]
    rw [List.find?_cons_of_pos _ hr]
    rfl
  case kinds =>
    intro r
    unfold joinKind
    by_cases hc : pyUpper (pyOr r.joinType "LEFT") = "INNER" ||
        pyUpper (pyOr r.joinType "LEFT") = "LEFT" ||
        pyUpper (pyOr r.joinType "LEFT") = "RIGHT" ||
        pyUpper (pyOr r.joinType "LEFT") = "FULL"
    · rw [if_pos hc]
      simp only [Bool.or_eq_true, decide_eq_true_eq] at hc
      tauto
    · rw [if_neg hc]
      exact Or.inr (Or.inl rfl)
  case kdef =>
    intro r h
    simp only [joinKind, h]
    decide
  case kunrec =>
    intro r h1 h2 h3 h4
    simp only [joinKind]
    rw [if_neg (by simp [h1, h2, h3, h4])]
  case adef =>
    intro r h
    simp only [joinAliasOf, h]
    decide

/-- Witness for C8: the first qualifying row wins; a bogus join type
normalizes to LEFT and an absent alias becomes `j`. -/
theorem claim_C8_witness :
    joinClause
      [{ targetColumn := "a" },
       { joinTable := "JT", joinCondition := "x = y", joinType := "bogus" },
       { joinTable := "Z", joinCondition := "u = v", joinType := "INNER" }] =
      "\n  LEFT JOIN JT j ON x = y" := by
  have h := claim_C8.2.1 [{ targetColumn := "a" }]
    { joinTable := "JT", joinCondition := "x = y", joinType := "bogus" }
    [{ joinTable := "Z", joinCondition := "u = v", joinType := "INNER" }]
    (by decide) (by decide)
  exact h.trans (by decide)

-- ---------------------------------------------------------------------------
-- validator (sttm_validations_v22.py) and table DDL columns
-- ---------------------------------------------------------------------------

/-- Cell normalization of `norm_cols`: strip, then map a bare `nan` (any case)
to the empty string. -/
def normField (s : String) : String :=
  let t := pyStrip s
  if pyLower t = "nan" then "" else t

/-- Normalization of one row by `norm_cols`. -/
def normRow (r : Row) : Row :=
  { targetTable := normField r.targetTable,
    targetColumn := normField r.targetColumn,
    targetDataType := normField r.targetDataType,
    pipelineStage := normField r.pipelineStage,
    isTargetPK := normField r.isTargetPK,
    sourcePrimaryTable := normField r.sourcePrimaryTable,
    sourcePrimaryAlias := normField r.sourcePrimaryAlias,
    sourceField := normField r.sourceField,
    fieldSelector := normField r.fieldSelector,
    messageFormat := normField r.messageFormat,
    exprOverride := normField r.exprOverride,
    sourceTransformExpr := normField r.sourceTransformExpr,
    filterPredicate := normField r.filterPredicate,
    joinTable := normField r.joinTable,
    joinAlias := normField r.joinAlias,
    joinCondition := normField r.joinCondition,
    joinType := normField r.joinType }

/-- Embedding of `_uniq`: first-occurrence de-duplication with a seen set. -/
def uniqFirstAux (seen : List String) : List String → List String
  | [] => []
  | x :: xs =>
    if x ∈ seen then uniqFirstAux seen xs else x :: uniqFirstAux (x :: seen) xs

/-- The `_uniq` scan with an initially empty seen set. -/
def uniqFirst (l : List String) : List String := uniqFirstAux [] l

/-- Insertion step of a simple stable sort. -/
def insertSorted {α : Type} (le : α → α → Bool) (x : α) : List α → List α
  | [] => [x]
  | y :: ys => if le x y then x :: y :: ys else y :: insertSorted le x ys

/-- Insertion sort (deterministic stand-in for the pandas sorts, which only
promise an order by the given keys). -/
def sortByLe {α : Type} (le : α → α → Bool) (l : List α) : List α :=
  l.foldr (insertSorted le) []

/-- Ascending sort of group keys (pandas `groupby` sorts keys). -/
def sortStrings (l : List String) : List String :=
  sortByLe (fun a b => decide (a ≤ b)) l

/-- The duplicate-column error message. -/
def dupMsg (tname c : String) : String :=
  "[" ++ tname ++ "] duplicate TargetColumn: " ++ c

/-- Duplicate `TargetColumn` errors: one per distinct value occurring more
than once (validate_views_and_alignment lines 96-98). -/
def dupErrors (tname : String) (tgtCols : List String) : List String :=
  (uniqFirst (tgtCols.filter (fun c => decide (1 < tgtCols.count c)))).map (dupMsg tname)

/-- Column lines of `build_table_ddl` (lines 213-218): `(name, type)`
pairs, deduplicated by name with the first occurrence winning. -/
def ddlCols : List Row → List String → List (String × String)
  | [], _ => []
  | r :: rs, seen =>
    let c := pyStrip r.targetColumn
    if c ≠ "" && !seen.contains c
    then (c, tgtTypeOf r) :: ddlCols rs (c :: seen)
    else ddlCols rs seen

/-- Primary-key columns of `build_table_ddl` (lines 219-220). -/
def ddlPk : List Row → List String → List String
  | [], _ => []
  | r :: rs, pk =>
    let c := pyStrip r.targetColumn
    if c ≠ "" && pyUpper (pyStrip r.isTargetPK) = "Y" && !pk.contains c
    then c :: ddlPk rs (c :: pk)
    else ddlPk rs pk

/-- Embedding of `build_table_ddl` (lines 202-230). -/
def build_table_ddl (table_emitted : String) (rows : List Row)
    (props : List (String × String)) : String :=
  let colLines := (ddlCols rows []).map (fun p => "  " ++ p.1 ++ " " ++ p.2)
  let pk := ddlPk rows []
  let colLines2 :=
    if pk.isEmpty then colLines
    else colLines ++ ["  PRIMARY KEY (" ++ String.intercalate ", " pk ++ ") NOT ENFORCED"]
  let ddl := "CREATE TABLE IF NOT EXISTS " ++ table_emitted ++ " (\n" ++
    String.intercalate ",\n" colLines2 ++ "\n)"
  let ddl2 :=
    if props.isEmpty then ddl
    else ddl ++ "\nWITH (\n  " ++
      String.intercalate ", "
        (props.map (fun kv => "\x27" ++ kv.1 ++ "\x27 = \x27" ++ kv.2 ++ "\x27")) ++
      "\n)"
  ddl2 ++ ";"

/-- Generator-side test for a primary-key row carrying a filter
(generate, lines 328-330). -/
def genPkQual (r : Row) : Bool :=
  pyUpper r.isTargetPK = "Y" && pyStrip r.filterPredicate ≠ ""

/-- The view filter pick: the stripped `FilterPredicate` of the first PK
row, or the empty string. -/
def pickPkFilter : List Row → String
  | [] => ""
  | r :: rs => if genPkQual r then pyStrip r.filterPredicate else pickPkFilter rs

/-- The WHERE text used for a view unit (generate, line 331). -/
def viewFilterSql (rows : List Row) (payload : String) : String :=
  let pk := pickPkFilter rows
  if pk ≠ "" then rewrite_predicate_as_json (sanitize_predicate pk) payload else ""

/-- Validator-side test for a primary-key row carrying a filter
(validate_views_and_alignment, line 128). -/
def pkFilterQual (r : Row) : Bool :=
  pyUpper (pyStrip r.isTargetPK) = "Y" && pyStrip r.filterPredicate ≠ ""

/-- The `fps` list of the validator: stripped filters of PK rows. -/
def fpsOf (rows : List Row) : List String :=
  (rows.filter pkFilterQual).map (fun r => pyStrip r.filterPredicate)

/-- Filter-shape warnings of a VIEW unit (lines 127-132): at most one
warning, only about the first PK filter still starting with a keyword. -/
def viewFilterWarns (tname : String) (rows : List Row) : List String :=
  match fpsOf rows with
  | [] => []
  | raw :: _ =>
    if (leadKw raw.data).isSome
    then ["[" ++ tname ++ "] FilterPredicate should be condition only; drop leading WHERE/AND/OR."]
    else []

/-- Python `repr` of a list of strings, as interpolated into messages. -/
def pyListRepr (l : List String) : String :=
  "[" ++ String.intercalate ", " (l.map (fun s => "\x27" ++ s ++ "\x27")) ++ "]"

/-- Per-row VIEW checks (lines 110-126), with 1-based row numbering. -/
def viewRowChecks (tname : String) : Nat → List Row → List String
  | _, [] => []
  | i, r :: rs =>
    let mf := pyUpper (pyStrip r.messageFormat)
    let ov := pyStrip r.exprOverride
    let st := pyStrip r.sourceTransformExpr
    let sf := pyStrip r.sourceField
    let fsel := pyStrip r.fieldSelector
    let e1 := if mf ≠ "" && !(mf = "JSON" || mf = "CSV")
      then ["[" ++ tname ++ "] row#" ++ toString i ++ " invalid MessageFormat: " ++ mf]
      else []
    let e2 := if mf = "JSON" && ov = "" && st = "" && pyOr sf fsel = ""
      then ["[" ++ tname ++ "] row#" ++ toString i ++ " JSON View missing key (SourceField or FieldSelector)."]
      else []
    let e3 := if mf = "JSON" && (pyOr sf fsel).data.head? = some '$'
      then ["[" ++ tname ++ "] row#" ++ toString i ++ " JSON key must not start with \x27$\x27."]
      else []
    let e4 := if mf = "CSV" && ov = "" && st = "" && fsel ≠ "" && !isDigitsRe (pyStrip fsel)
      then ["[" ++ tname ++ "] row#" ++ toString i ++ " CSV FieldSelector must be numeric when provided. Got: " ++ fsel]
      else []
    e1 ++ e2 ++ e3 ++ e4 ++ viewRowChecks tname (i + 1) rs

/-- The per-unit body of `validate_views_and_alignment` (lines 85-140). -/
def unitChecks (tname : String) (rows : List Row) : List String × List String :=
  if pyStrip tname = "" then (["Found row with blank TargetTable."], [])
  else
    let stage := pyUpper (pyStrip (rows.headD default).pipelineStage)
    let tgtCols := (rows.map (fun r => r.targetColumn)).filter (fun c => c ≠ "")
    let eNoCols := if tgtCols.isEmpty
      then ["[" ++ tname ++ "] has no TargetColumn entries."] else []
    let eDup := dupErrors tname tgtCols
    let pkCols := (rows.filter
        (fun r => pyUpper (pyStrip r.isTargetPK) = "Y" && r.targetColumn ≠ "")).map
      (fun r => r.targetColumn)
    let wPk := if pkCols.length ≠ (uniqFirst pkCols).length
      then ["[" ++ tname ++ "] duplicate PK marks on: " ++ String.intercalate ", " pkCols]
      else []
    let spts := (rows.map (fun r => r.sourcePrimaryTable)).filter (fun s => s ≠ "")
    let eSpt := if spts.isEmpty
      then ["[" ++ tname ++ "] missing SourcePrimaryTable (at least one row must specify it)."]
      else []
    let wSpt := if !spts.isEmpty && stage = "VIEW" && decide (1 < (uniqFirst spts).length)
      then ["[" ++ tname ++ "] VIEW uses multiple SourcePrimaryTable values: " ++
        pyListRepr (uniqFirst spts)]
      else []
    if stage = "VIEW" then
      (eNoCols ++ eDup ++ eSpt ++ viewRowChecks tname 1 rows,
       wPk ++ wSpt ++ viewFilterWarns tname rows)
    else
      let jt := (rows.map (fun r => pyStrip r.joinTable)).filter (fun s => s ≠ "")
      let jc := (rows.map (fun r => pyStrip r.joinCondition)).filter (fun s => s ≠ "")
      let wJoin := if !jt.isEmpty && jc.isEmpty
        then ["[" ++ tname ++ "] JoinTable specified but JoinCondition missing."] else []
      let eJoin := if !jc.isEmpty && jt.isEmpty
        then ["[" ++ tname ++ "] JoinCondition provided but JoinTable empty."] else []
      (eNoCols ++ eDup ++ eSpt ++ eJoin, wPk ++ wSpt ++ wJoin)

/-- Embedding of `validate_views_and_alignment` over a full-schema mapping: normalize,
group by `TargetTable` (keys in sorted order, rows in input order), run the
unit checks, and accumulate `(errors, warnings)`. -/
def validate_views_and_alignment (mapping : List Row) : List String × List String :=
  let df := mapping.map normRow
  let keys := sortStrings (uniqFirst (df.map (fun r => r.targetTable)))
  keys.foldl
    (fun acc t =>
      let res := unitChecks t (df.filter (fun r => r.targetTable = t))
      (acc.1 ++ res.1, acc.2 ++ res.2))
    ([], [])

-- lemmas about uniqFirst

theorem mem_uniqFirstAux (l : List String) :
    ∀ (seen : List String) (y : String),
      y ∈ uniqFirstAux seen l ↔ (y ∈ l ∧ y ∉ seen) := by
  induction l with
  | nil => intro seen y; simp [uniqFirstAux]
  | cons x xs ih =>
    intro seen y
    rw [uniqFirstAux]
    by_cases hx : x ∈ seen
    · rw [if_pos hx, ih]
      constructor
      · rintro ⟨h1, h2⟩
        exact ⟨List.mem_cons_of_mem x h1, h2⟩
      · rintro ⟨h1, h2⟩
        rcases List.mem_cons.mp h1 with rfl | h1
        · exact absurd hx h2
        · exact ⟨h1, h2⟩
    · rw [if_neg hx, List.mem_cons, ih]
      constructor
      · rintro (rfl | ⟨h1, h2⟩)
        · exact ⟨List.mem_cons_self _ _, hx⟩
        · exact ⟨List.mem_cons_of_mem x h1, fun hc => h2 (List.mem_cons_of_mem x hc)⟩
      · rintro ⟨h1, h2⟩
        by_cases hyx : y = x
        · exact Or.inl hyx
        · rcases List.mem_cons.mp h1 with rfl | h1
          · exact absurd rfl hyx
          · refine Or.inr ⟨h1, fun hc => ?_⟩
            rcases List.mem_cons.mp hc with rfl | hc
            · exact hyx rfl
            · exact h2 hc

theorem nodup_uniqFirstAux (l : List String) :
    ∀ seen : List String, (uniqFirstAux seen l).Nodup := by
  induction l with
  | nil => intro seen; simp [uniqFirstAux]
  | cons x xs ih =>
    intro seen
    rw [uniqFirstAux]
    by_cases hx : x ∈ seen
    · rw [if_pos hx]; exact ih seen
    · rw [if_neg hx, List.nodup_cons]
      refine ⟨fun hc => ?_, ih (x :: seen)⟩
      exact ((mem_uniqFirstAux xs (x :: seen) x).mp hc).2 (List.mem_cons_self x seen)

theorem mem_uniqFirst (l : List String) (y : String) : y ∈ uniqFirst l ↔ y ∈ l := by
  unfold uniqFirst
  rw [mem_uniqFirstAux]
  simp

theorem dupMsg_injective (tname : String) : Function.Injective (dupMsg tname) := by
  intro a b h
  unfold dupMsg at h
  have hd := congrArg String.data h
  rw [String.data_append, String.data_append] at hd
  have := List.append_cancel_left hd
  exact congrArg String.mk this

-- lemmas about ddlCols

theorem ddlCols_keys (rows : List Row) :
    ∀ seen : List String,
      ((ddlCols rows seen).map Prod.fst).Nodup ∧
      ∀ k ∈ (ddlCols rows seen).map Prod.fst, k ∉ seen := by
  induction rows with
  | nil => intro seen; exact ⟨List.nodup_nil, by simp [ddlCols]⟩
  | cons r rs ih =>
    intro seen
    rw [ddlCols]
    by_cases hc : pyStrip r.targetColumn ≠ "" && !seen.contains (pyStrip r.targetColumn)
    · rw [if_pos hc]
      obtain ⟨ihn, ihm⟩ := ih (pyStrip r.targetColumn :: seen)
      simp only [Bool.and_eq_true, Bool.not_eq_true', decide_eq_true_eq] at hc
      constructor
      · rw [List.map_cons, List.nodup_cons]
        exact ⟨fun hmem => (ihm _ hmem) (List.mem_cons_self _ _), ihn⟩
      · intro k hk
        rw [List.map_cons, List.mem_cons] at hk
        rcases hk with rfl | hk
        · intro hmem
          exact absurd hmem (by simpa using hc.2)
        · exact fun hmem => (ihm _ hk) (List.mem_cons_of_mem _ hmem)
    · rw [if_neg hc]
      exact ih seen

theorem ddlCols_lookup (rows : List Row) :
    ∀ (seen : List String) (c : String), c ≠ "" → c ∉ seen →
      (ddlCols rows seen).lookup c =
        ((rows.find? (fun r => pyStrip r.targetColumn == c)).map tgtTypeOf) := by
  induction rows with
  | nil => intro seen c _ _; rfl
  | cons r rs ih =>
    intro seen c h1 h2
    rw [ddlCols]
    by_cases hc : pyStrip r.targetColumn ≠ "" && !seen.contains (pyStrip r.targetColumn)
    · rw [if_pos hc]
      simp only [Bool.and_eq_true, Bool.not_eq_true', decide_eq_true_eq] at hc
      by_cases hceq : pyStrip r.targetColumn = c
      · rw [List.find?_cons_of_pos _ (by simp [hceq])]
        simp [List.lookup, hceq]
      · rw [List.find?_cons_of_neg _ (by simp [hceq])]
        have hne : (c == pyStrip r.targetColumn) = false := by
          simp [Ne.symm hceq]
        simp only [List.lookup, hne]
        apply ih
        · exact h1
        · intro hmem
          rcases List.mem_cons.mp hmem with rfl | hmem
          · exact hceq rfl
          · exact h2 hmem
    · rw [if_neg hc]
      have hskip : (pyStrip r.targetColumn == c) = false := by
        simp only [Bool.and_eq_true, Bool.not_eq_true', decide_eq_true_eq,
          not_and] at hc
        by_cases hemp : pyStrip r.targetColumn = ""
        · simp [hemp, Ne.symm h1]
        · have hcont := hc (by simpa using hemp)
          have hmem : pyStrip r.targetColumn ∈ seen := by
            by_cases hm : pyStrip r.targetColumn ∈ seen
            · exact hm
            · exact absurd (by simpa using hm) hcont
          have : pyStrip r.targetColumn ≠ c := fun he => h2 (he ▸ hmem)
          simpa using this
      rw [List.find?_cons_of_neg _ (by simp [hskip])]
      exact ih seen c h1 h2

/-- C9: the duplicate-`TargetColumn` validation yields exactly one error
per distinct duplicated value (the messages are distinct, and the message
of a value appears iff the value occurs more than once), and the CREATE TABLE
column list names each column exactly once, typed by its first
occurrence. -/
theorem claim_C9 (tname : String) (tgtCols : List String) (rows : List Row)
    (c : String) (hc : c ≠ "") :
    (dupErrors tname tgtCols).Nodup ∧
    (∀ v : String, dupMsg tname v ∈ dupErrors tname tgtCols ↔
      (v ∈ tgtCols ∧ 1 < tgtCols.count v)) ∧
    ((ddlCols rows []).map Prod.fst).Nodup ∧
    (ddlCols rows []).lookup c =
      ((rows.find? (fun r => pyStrip r.targetColumn == c)).map tgtTypeOf) := by
  refine ⟨?nodup, ?mem, (ddlCols_keys rows []).1, ddlCols_lookup rows [] c hc (by simp)⟩
  case nodup =>
    exact (nodup_uniqFirstAux _ []).map (dupMsg_injective tname)
  case mem =>
    intro v
    unfold dupErrors
    rw [List.mem_map_of_injective (dupMsg_injective tname)]
    rw [mem_uniqFirst, List.mem_filter]
    simp

/-- Witness for C9 at a concrete duplicated unit. -/
theorem claim_C9_witness :
    dupMsg "T" "A" ∈ dupErrors "T" ["A", "B", "A"] ∧
    (ddlCols
      [{ targetColumn := "A", targetDataType := "INT" },
       { targetColumn := "A", targetDataType := "STRING" },
       { targetColumn := "B" }] []).lookup "A" = some "INT" := by
  constructor
  · exact (claim_C9 "T" ["A", "B", "A"] [] "x" (by decide)).2.1 "A" |>.mpr (by decide)
  · have h := (claim_C9 "T" []
      [{ targetColumn := "A", targetDataType := "INT" },
       { targetColumn := "A", targetDataType := "STRING" },
       { targetColumn := "B" }] "A" (by decide)).2.2.2
    rw [h]
    decide

-- lemmas about the view filter pick

theorem pickPkFilter_find (rows : List Row) :
    pickPkFilter rows =
      ((rows.find? genPkQual).map (fun x => pyStrip x.filterPredicate)).getD "" := by
  induction rows with
  | nil => rfl
  | cons r rs ih =>
    rw [pickPkFilter]
    by_cases h : genPkQual r
    · rw [if_pos h, List.find?_cons_of_pos _ h]
      rfl
    · rw [if_neg h, List.find?_cons_of_neg _ h, ih]

theorem pickPkFilter_skip (pre : List Row) (r : Row) (post : List Row)
    (h : genPkQual r = false) :
    pickPkFilter (pre ++ r :: post) = pickPkFilter (pre ++ post) := by
  induction pre with
  | nil =>
    rw [List.nil_append, List.nil_append, pickPkFilter, if_neg (by simp [h])]
  | cons x xs ih =>
    rw [List.cons_append, List.cons_append, pickPkFilter, pickPkFilter]
    by_cases hx : genPkQual x
    · rw [if_pos hx, if_pos hx]
    · rw [if_neg hx, if_neg hx, ih]

/-- A VIEW unit whose second row is a non-primary-key row carrying a
filter predicate. -/
def c7NonPkRow : Row :=
  { targetTable := "T1", targetColumn := "B", targetDataType := "STRING",
    pipelineStage := "VIEW", sourcePrimaryTable := "src",
    sourceField := "b", messageFormat := "JSON", filterPredicate := "X = 1" }

/-- The two-row VIEW unit used against the warning claim. -/
def c7ViewRows : List Row :=
  [{ targetTable := "T1", targetColumn := "A", targetDataType := "STRING",
     pipelineStage := "VIEW", isTargetPK := "Y", sourcePrimaryTable := "src",
     sourceField := "a", messageFormat := "JSON" },
   c7NonPkRow]

/-- The claim, as stated, is false: in a VIEW unit where a non-primary-key
row carries a filter predicate, the validator reports no warning at all
(the only filter-related warning in the code is the leading-keyword shape
check on the first PK filter). -/
theorem claim_C7_cx :
    (validate_views_and_alignment c7ViewRows).2 = [] ∧
    (validate_views_and_alignment c7ViewRows).1 = [] ∧
    pyUpper (pyStrip c7NonPkRow.isTargetPK) ≠ "Y" ∧
    pyStrip c7NonPkRow.filterPredicate ≠ "" := by
  exact ⟨by decide, by decide, by decide, by decide⟩

/-- C7 (amended): for a view unit the generator uses exactly the filter of
the first primary-key row carrying one (rows without the PK flag or
without a filter are skipped and never influence the choice), and the
validator emits at most one filter-related warning — only when the first
PK filter itself still begins with WHERE/AND/OR; filters on non-PK rows
and additional PK filters produce no finding. -/
theorem claim_C7 (tname : String) (rows pre post : List Row) (r : Row) :
    (pickPkFilter rows =
      ((rows.find? genPkQual).map (fun x => pyStrip x.filterPredicate)).getD "") ∧
    (genPkQual r = false →
      pickPkFilter (pre ++ r :: post) = pickPkFilter (pre ++ post)) ∧
    ((viewFilterWarns tname rows).length ≤ 1) ∧
    (viewFilterWarns tname rows ≠ [] ↔
      (fpsOf rows ≠ [] ∧ (leadKw ((fpsOf rows).headD "").data).isSome = true)) := by
  refine ⟨pickPkFilter_find rows, pickPkFilter_skip pre r post, ?len, ?iff⟩
  case len =>
    unfold viewFilterWarns
    cases fpsOf rows with
    | nil => simp
    | cons raw rest =>
      by_cases h : (leadKw raw.data).isSome <;> simp [h]
  case iff =>
    unfold viewFilterWarns
    cases hf : fpsOf rows with
    | nil => simp
    | cons raw rest =>
      by_cases h : (leadKw raw.data).isSome <;> simp [h]

/-- Witness for C7: a non-PK row carrying a filter is dropped from the
pick, so the unit keeps the filter of the PK row. -/
theorem claim_C7_witness :
    pickPkFilter
      [{ targetColumn := "B", filterPredicate := "X = 1" },
       { targetColumn := "A", isTargetPK := "Y", filterPredicate := "S = 2" }] =
      pickPkFilter
        [{ targetColumn := "A", isTargetPK := "Y", filterPredicate := "S = 2" }] := by
  have h := (claim_C7 "T"
    [] []
    [{ targetColumn := "A", isTargetPK := "Y", filterPredicate := "S = 2" }]
    { targetColumn := "B", filterPredicate := "X = 1" }).2.1 (by decide)
  exact h

-- ---------------------------------------------------------------------------
-- grouping, sorting and unit stage selection (generate, lines 269-291)
-- ---------------------------------------------------------------------------

theorem stripL_idem (l : List Char) : stripL (stripL l) = stripL l :=
  stripL_eq_self (fun _ hc => stripL_head hc) (fun _ hc => stripL_last hc)

theorem pyStrip_idem (s : String) : pyStrip (pyStrip s) = pyStrip s :=
  congrArg String.mk (stripL_idem s.data)

theorem pyStrip_normField (s : String) : pyStrip (normField s) = normField s := by
  unfold normField
  by_cases h : pyLower (pyStrip s) = "nan"
  · simp only [if_pos h]
    rfl
  · simp only [if_neg h]
    exact pyStrip_idem s

/-- The per-row strip of `generate` line 280. -/
def stripRow (r : Row) : Row :=
  { targetTable := pyStrip r.targetTable,
    targetColumn := pyStrip r.targetColumn,
    targetDataType := pyStrip r.targetDataType,
    pipelineStage := pyStrip r.pipelineStage,
    isTargetPK := pyStrip r.isTargetPK,
    sourcePrimaryTable := pyStrip r.sourcePrimaryTable,
    sourcePrimaryAlias := pyStrip r.sourcePrimaryAlias,
    sourceField := pyStrip r.sourceField,
    fieldSelector := pyStrip r.fieldSelector,
    messageFormat := pyStrip r.messageFormat,
    exprOverride := pyStrip r.exprOverride,
    sourceTransformExpr := pyStrip r.sourceTransformExpr,
    filterPredicate := pyStrip r.filterPredicate,
    joinTable := pyStrip r.joinTable,
    joinAlias := pyStrip r.joinAlias,
    joinCondition := pyStrip r.joinCondition,
    joinType := pyStrip r.joinType }

theorem stripRow_normRow (r : Row) : stripRow (normRow r) = normRow r := by
  simp [stripRow, normRow, pyStrip_normField]

/-- Sort rank `_s` of the pipeline stage (VIEW 0, XREF 1, FGAC 2, else 99). -/
def stageRank (s : String) : Nat :=
  if pyUpper s = "VIEW" then 0
  else if pyUpper s = "XREF" then 1
  else if pyUpper s = "FGAC" then 2
  else 99

/-- Sort rank `_p`: primary-key rows sort first. -/
def pkSortRank (s : String) : Nat := if pyUpper s = "Y" then 0 else 1

/-- The sort key of the generate sort: stage rank, table, PK rank, column. -/
def sortKeyOf (r : Row) : Lex (Nat × Lex (String × Lex (Nat × String))) :=
  toLex (stageRank r.pipelineStage,
    toLex (r.targetTable, toLex (pkSortRank r.isTargetPK, r.targetColumn)))

/-- Row comparison by the sort key. -/
def rowLE (a b : Row) : Bool := decide (sortKeyOf a ≤ sortKeyOf b)

/-- The rows of one generation unit: normalize, sort by the key, strip,
keep the rows of table `t` in order. -/
def genGroups (mapping : List Row) (t : String) : List Row :=
  ((sortByLe rowLE (mapping.map normRow)).map stripRow).filter
    (fun r => r.targetTable = t)

/-- The unit stage: the `PipelineStage` of the first group row, with FGAC as fallback, uppercased. -/
def unitStage (g : List Row) : String :=
  pyUpper (pyOr (g.headD default).pipelineStage "FGAC")

-- generic facts about the insertion sort

theorem insertSorted_perm {α : Type} (le : α → α → Bool) (x : α) (l : List α) :
    (insertSorted le x l).Perm (x :: l) := by
  induction l with
  | nil => exact List.Perm.refl _
  | cons y ys ih =>
    rw [insertSorted]
    by_cases h : le x y
    · rw [if_pos h]
    · rw [if_neg h]
      exact (ih.cons y).trans (List.Perm.swap x y ys)

theorem sortByLe_perm {α : Type} (le : α → α → Bool) (l : List α) :
    (sortByLe le l).Perm l := by
  induction l with
  | nil => exact List.Perm.refl _
  | cons x xs ih =>
    exact (insertSorted_perm le x (sortByLe le xs)).trans (ih.cons x)

theorem pairwise_insertSorted {α : Type} (le : α → α → Bool)
    (htrans : ∀ a b c, le a b = true → le b c = true → le a c = true)
    (htot : ∀ a b, le a b = true ∨ le b a = true) (x : α) (l : List α)
    (h : l.Pairwise (fun a b => le a b = true)) :
    (insertSorted le x l).Pairwise (fun a b => le a b = true) := by
  induction l with
  | nil => simp [insertSorted]
  | cons y ys ih =>
    rw [List.pairwise_cons] at h
    obtain ⟨hy, hys⟩ := h
    rw [insertSorted]
    by_cases hxy : le x y
    · rw [if_pos hxy, List.pairwise_cons]
      refine ⟨?all, List.pairwise_cons.mpr ⟨hy, hys⟩⟩
      intro z hz
      rcases List.mem_cons.mp hz with rfl | hz
      · exact hxy
      · exact htrans x y z hxy (hy z hz)
    · rw [if_neg hxy, List.pairwise_cons]
      refine ⟨?ally, ih hys⟩
      intro z hz
      have hz2 := (insertSorted_perm le x ys).mem_iff.mp hz
      rcases List.mem_cons.mp hz2 with rfl | hz2
      · rcases htot z y with h1 | h1
        · exact absurd h1 hxy
        · exact h1
      · exact hy z hz2

theorem pairwise_sortByLe {α : Type} (le : α → α → Bool)
    (htrans : ∀ a b c, le a b = true → le b c = true → le a c = true)
    (htot : ∀ a b, le a b = true ∨ le b a = true) (l : List α) :
    (sortByLe le l).Pairwise (fun a b => le a b = true) := by
  induction l with
  | nil => simp [sortByLe]
  | cons x xs ih => exact pairwise_insertSorted le htrans htot x _ ih

-- facts about the row order

theorem rowLE_trans (a b c : Row) (h1 : rowLE a b = true) (h2 : rowLE b c = true) :
    rowLE a c = true :=
  decide_eq_true (le_trans (of_decide_eq_true h1) (of_decide_eq_true h2))

theorem rowLE_total (a b : Row) : rowLE a b = true ∨ rowLE b a = true :=
  (le_total (sortKeyOf a) (sortKeyOf b)).imp decide_eq_true decide_eq_true

theorem stageRank_zero (s : String) : stageRank s = 0 ↔ pyUpper s = "VIEW" := by
  unfold stageRank
  by_cases h : pyUpper s = "VIEW"
  · simp [h]
  · by_cases h2 : pyUpper s = "XREF" <;> by_cases h3 : pyUpper s = "FGAC" <;>
      simp [h, h2, h3]

theorem rowLE_rank {a b : Row} (h : rowLE a b = true) :
    stageRank a.pipelineStage ≤ stageRank b.pipelineStage := by
  have hle := of_decide_eq_true h
  unfold sortKeyOf at hle
  rw [Prod.Lex.le_iff] at hle
  rcases hle with hlt | ⟨heq, _⟩
  · exact le_of_lt hlt
  · exact le_of_eq heq

theorem unitStage_head (h0 : Row) (tl : List Row) :
    unitStage (h0 :: tl) = "VIEW" ↔ pyUpper h0.pipelineStage = "VIEW" := by
  unfold unitStage pyOr
  simp only [List.headD_cons]
  by_cases he : h0.pipelineStage = ""
  · rw [he]
    decide
  · rw [if_neg he]

/-- C10: in a generation unit the pipeline stage is read from the first
row after sorting, so the unit is treated as a view exactly when *any* of
its rows carries stage VIEW (stage rank sorts first); all other rows are
generated under that stage regardless of their own `PipelineStage`, and
the group holds exactly the normalized mapping rows of that table. -/
theorem claim_C10 (mapping : List Row) (t : String)
    (hne : genGroups mapping t ≠ []) :
    (unitStage (genGroups mapping t) = "VIEW" ↔
      ∃ r ∈ genGroups mapping t, pyUpper r.pipelineStage = "VIEW") ∧
    (genGroups mapping t).Perm
      ((mapping.map normRow).filter (fun r => r.targetTable = t)) := by
  have hmapstrip : (sortByLe rowLE (mapping.map normRow)).map stripRow =
      sortByLe rowLE (mapping.map normRow) := by
    have hid : ∀ x ∈ sortByLe rowLE (mapping.map normRow), stripRow x = x := by
      intro x hx
      have hx2 : x ∈ mapping.map normRow := (sortByLe_perm rowLE _).subset hx
      obtain ⟨y, _, rfl⟩ := List.mem_map.mp hx2
      exact stripRow_normRow y
    rw [List.map_congr_left hid]
    exact List.map_id _
  have hgen : genGroups mapping t =
      (sortByLe rowLE (mapping.map normRow)).filter (fun r => r.targetTable = t) := by
    unfold genGroups
    rw [hmapstrip]
  have hpair : (genGroups mapping t).Pairwise (fun a b => rowLE a b = true) := by
    rw [hgen]
    exact (pairwise_sortByLe rowLE rowLE_trans rowLE_total _).filter _
  constructor
  · cases hg : genGroups mapping t with
    | nil => exact absurd hg hne
    | cons h0 tl =>
      rw [hg, List.pairwise_cons] at hpair
      obtain ⟨hall, _⟩ := hpair
      rw [unitStage_head]
      constructor
      · intro hv
        exact ⟨h0, List.mem_cons_self _ _, hv⟩
      · rintro ⟨r, hr, hrv⟩
        rcases List.mem_cons.mp hr with rfl | hr
        · exact hrv
        · have hle := rowLE_rank (hall r hr)
          have hr0 : stageRank r.pipelineStage = 0 := (stageRank_zero _).mpr hrv
          have h00 : stageRank h0.pipelineStage = 0 := by omega
          exact (stageRank_zero _).mp h00
  · rw [hgen]
    exact (sortByLe_perm rowLE _).filter _

/-- A table with mixed stages: an FGAC-tagged row listed first, a
VIEW-tagged row listed second. -/
def c10Rows : List Row :=
  [{ targetTable := "T", targetColumn := "b", pipelineStage := "FGAC" },
   { targetTable := "T", targetColumn := "a", pipelineStage := "VIEW" }]

/-- Witness for C10: the mixed unit is generated as a VIEW unit. -/
theorem claim_C10_witness : unitStage (genGroups c10Rows "T") = "VIEW" :=
  (claim_C10 c10Rows "T" (by decide)).1.mpr
    ⟨{ targetTable := "T", targetColumn := "a", pipelineStage := "VIEW" },
      by decide, by decide⟩
